import Mathlib

/-!
Verification development for the transport core of an Elasticsearch-style
HTTP client library. The Lean definitions below are shallow embeddings of
the JavaScript/TypeScript sources:

* `lib/Transport.js` — default node filter, round-robin selector, the
  retry/abort attempt loop of `Transport.request`;
* `lib/Connection.js` — `request` open-request accounting and path checks;
* `lib/Serializer.js` — `qserialize`;
* `lib/pool/BaseConnectionPool.js` — `update`;
* `ConnectionPool` (standard pool) — `markAlive` / `markDead` backoff;
* `lib/errors.js` — the `ResponseError.statusCode` getter.

Machine integers of the source are modelled as `Nat`/`Int`; JavaScript
object identity is modelled with an explicit numeric `tag`; fallible code
returns `Option`.
-/

/-! ## Node roles and the default node filter (`lib/Transport.js`) -/

/-- Role flags of a Connection. Source default is
`{master: true, data: true, ingest: true, ml: false}` (`lib/Connection.js`). -/
structure NodeRoles where
  master : Bool
  data : Bool
  ingest : Bool
  ml : Bool
deriving Repr, DecidableEq

/-- Translation of `defaultNodeFilter` (`lib/Transport.js` lines 349-356):
`if (node.roles.master === true && node.roles.data === false &&
node.roles.ingest === false) return false; return true`. -/
def defaultNodeFilter (roles : NodeRoles) : Bool :=
  if roles.master = true ∧ roles.data = false ∧ roles.ingest = false then
    false
  else
    true

/-- Modelled from the spec wording for claim comparison only: a role set
that is exactly `{master}`, i.e. master enabled and every other role,
including ml, disabled. -/
def specMasterOnlyRoleSet (roles : NodeRoles) : Bool :=
  roles.master && !roles.data && !roles.ingest && !roles.ml

/-! ## Round-robin selector (`lib/Transport.js` lines 357-365) -/

/-- Cursor update of `_roundRobinSelector`:
`if (++current >= connections.length) current = 0` — the new cursor is also
the index returned. -/
def roundRobinNext (len : Nat) (current : Int) : Int :=
  if (len : Int) ≤ current + 1 then 0 else current + 1

/-- Run the selector `k` times against a fixed connection list, starting
from cursor `current`; returns the selected elements in call order
(`connections[current]`, which is `none` when the index is out of range). -/
def roundRobinSelectRun {α : Type} (conns : List α) : Nat → Int → List (Option α)
  | 0, _ => []
  | k + 1, current =>
    let nxt := roundRobinNext conns.length current
    conns[nxt.toNat]? :: roundRobinSelectRun conns k nxt

/-- Initial cursor of a fresh selector (`var current = -1`). -/
def roundRobinInitialCursor : Int := -1

/-! ## `ResponseError.statusCode` (`lib/errors.js` lines 67-88) -/

/-- JavaScript value stored in `result.body` as far as the
`ResponseError.statusCode` getter can observe it: the getter checks the
truthiness of `meta.body` and whether `meta.body.status` is a number. -/
inductive JsBodyVal where
  | jnull
  | jbool (b : Bool)
  | jstr (s : String)
  | jobjWithNumStatus (status : Int)
  | jobjWithStrStatus (status : String)
  | jobjNoStatus
deriving Repr, DecidableEq

/-- JavaScript truthiness of a `JsBodyVal` (`this.meta.body && ...`). -/
def jsTruthy : JsBodyVal → Bool
  | .jnull => false
  | .jbool b => b
  | .jstr s => !s.isEmpty
  | .jobjWithNumStatus _ => true
  | .jobjWithStrStatus _ => true
  | .jobjNoStatus => true

/-- Value of `body.status` when `typeof body.status === 'number'`, else
`none` (property absent, non-numeric, or body not an object). -/
def bodyStatusNumber : JsBodyVal → Option Int
  | .jobjWithNumStatus n => some n
  | _ => none

/-- The slice of the `result` object the `ResponseError` getters read:
`meta.body` and `meta.statusCode` (the HTTP status recorded by
`onResponse`, `null` before a response arrives). -/
structure ResponseErrorMeta where
  body : JsBodyVal
  statusCode : Option Int
deriving Repr, DecidableEq

/-- Translation of the `statusCode` getter of `ResponseError`
(`lib/errors.js`): `if (this.meta.body && typeof this.meta.body.status ===
'number') return this.meta.body.status; return this.meta.statusCode`. -/
def responseErrorStatusCode (meta : ResponseErrorMeta) : Option Int :=
  if jsTruthy meta.body && (bodyStatusNumber meta.body).isSome then
    bodyStatusNumber meta.body
  else
    meta.statusCode

/-! ## Theorems for C6, C7, C10 -/

/-- C6 counterexample: the claim says `defaultNodeFilter` returns `false`
exactly for role sets that are exactly `{master}` (ml disabled too). The
node `{master: true, data: false, ingest: false, ml: true}` is rejected by
the code although its role set is not exactly `{master}`: the source never
inspects `roles.ml`. -/
theorem defaultNodeFilter_rejects_master_with_ml :
    defaultNodeFilter ⟨true, false, false, true⟩ = false ∧
    specMasterOnlyRoleSet ⟨true, false, false, true⟩ = false := by
  decide

/-- C6 (amended): `defaultNodeFilter` returns `false` exactly for
Connections with master enabled, data disabled and ingest disabled,
regardless of the ml role, and returns `true` for every other
combination. -/
theorem defaultNodeFilter_characterization :
    ∀ roles : NodeRoles,
      defaultNodeFilter roles = false ↔
        (roles.master = true ∧ roles.data = false ∧ roles.ingest = false) := by
  intro roles
  rcases roles with ⟨m, d, i, l⟩
  cases m <;> cases d <;> cases i <;> simp [defaultNodeFilter]

/-- Helper for C7: starting the round-robin selector at cursor `i - 1`,
`k` calls walk the window `conns[i], …, conns[i+k-1]` in order, provided
the window fits in the list. -/
theorem roundRobinSelectRun_window {α : Type} (conns : List α) :
    ∀ (k i : Nat), i + k ≤ conns.length →
      roundRobinSelectRun conns k ((i : Int) - 1) =
        ((conns.drop i).take k).map some := by
  intro k
  induction k with
  | zero => intro i _; simp [roundRobinSelectRun]
  | succ k ih =>
    intro i hik
    have hi : i < conns.length := by omega
    have hnext : roundRobinNext conns.length ((i : Int) - 1) = (i : Int) := by
      unfold roundRobinNext
      rw [if_neg]
      · ring
      · omega
    have htoNat : ((i : Int)).toNat = i := by simp
    have hrec := ih (i + 1) (by omega)
    have hshift : ((i + 1 : Nat) : Int) - 1 = (i : Int) := by push_cast; ring
    rw [hshift] at hrec
    have hdrop : conns.drop i = conns[i] :: conns.drop (i + 1) :=
      List.drop_eq_getElem_cons hi
    simp only [roundRobinSelectRun, hnext, htoNat, hrec, hdrop,
      List.take_succ_cons, List.map_cons]
    simp [List.getElem?_eq_getElem hi]

/-- C7: for every non-empty fixed list of N connections, N consecutive
calls of a fresh default round-robin selector return each element exactly
once, in index order 0..N-1; in particular 7 calls on a stable 6-element
list select indices `[0, 1, 2, 3, 4, 5, 0]`. -/
theorem roundRobin_fair_window :
    (∀ (conns : List Nat), 0 < conns.length →
        roundRobinSelectRun conns conns.length roundRobinInitialCursor =
          conns.map some) ∧
    roundRobinSelectRun [0, 1, 2, 3, 4, 5] 7 roundRobinInitialCursor =
      [some 0, some 1, some 2, some 3, some 4, some 5, some 0] := by
  constructor
  · intro conns _
    have h := roundRobinSelectRun_window conns conns.length 0 (by omega)
    simpa [roundRobinInitialCursor] using h
  · decide

/-- C7 witness: the general part applied to the concrete list `[10, 20]`. -/
theorem roundRobin_fair_window_witness :
    roundRobinSelectRun [10, 20] 2 roundRobinInitialCursor = [some 10, some 20] :=
  roundRobin_fair_window.1 [10, 20] (by decide)

/-- C10: when `result.body` is an object carrying a numeric `status`
field, `ResponseError.statusCode` returns `body.status` — not the HTTP
status recorded in `result.statusCode` — and when `status` is absent or
non-numeric (or the body is not a truthy object) the getter falls back to
the HTTP status. -/
theorem responseError_statusCode_body_override :
    ∀ (n httpStatus : Int) (s msg : String),
      responseErrorStatusCode ⟨.jobjWithNumStatus n, some httpStatus⟩ = some n ∧
      (n ≠ httpStatus →
        responseErrorStatusCode ⟨.jobjWithNumStatus n, some httpStatus⟩ ≠
          some httpStatus) ∧
      responseErrorStatusCode ⟨.jobjNoStatus, some httpStatus⟩ = some httpStatus ∧
      responseErrorStatusCode ⟨.jobjWithStrStatus msg, some httpStatus⟩ =
        some httpStatus ∧
      responseErrorStatusCode ⟨.jstr s, some httpStatus⟩ = some httpStatus ∧
      responseErrorStatusCode ⟨.jbool false, some httpStatus⟩ = some httpStatus := by
  intro n httpStatus s msg
  refine ⟨rfl, ?_, rfl, rfl, ?_, rfl⟩
  · intro hne h
    simp [responseErrorStatusCode, jsTruthy, bodyStatusNumber] at h
    exact hne h
  · simp [responseErrorStatusCode, jsTruthy, bodyStatusNumber]

/-- C10 witness: the override evaluated at body status 400 against HTTP
status 502. -/
theorem responseError_statusCode_body_override_witness :
    responseErrorStatusCode ⟨.jobjWithNumStatus 400, some 502⟩ ≠ some 502 :=
  (responseError_statusCode_body_override 400 502 "x" "y").2.1 (by decide)

/-! ## Serializer `qserialize` (`lib/Serializer.js` lines 47-64) -/

/-- Value of one key of the mapping handed to `qserialize`: `undefined`, a
string, or an array of strings. -/
inductive QVal where
  | undef
  | qstr (s : String)
  | qarr (elems : List String)
deriving Repr, DecidableEq

/-- Argument of `qserialize`: `null`/`undefined`, a string, or a mapping
(JavaScript object, keys in insertion order). -/
inductive QInput where
  | qnull
  | qstring (s : String)
  | qmap (entries : List (String × QVal))
deriving Repr, DecidableEq

/-- Translation of the key loop of `qserialize`: over the pre-computed key
list, `delete object[key]` when the value is `undefined`, and
`object[key] = object[key].join(',')` when it is an array. The result is
the state of the mapping AFTER the loop — the loop mutates its input. -/
def qserializeMutate : List (String × QVal) → List (String × QVal)
  | [] => []
  | (_, QVal.undef) :: rest => qserializeMutate rest
  | (k, QVal.qarr a) :: rest =>
    (k, QVal.qstr (String.intercalate "," a)) :: qserializeMutate rest
  | (k, QVal.qstr s) :: rest => (k, QVal.qstr s) :: qserializeMutate rest

/-- Upper-case hexadecimal digit for percent-encoding. -/
def hexDigit (n : Nat) : Char :=
  if n < 10 then Char.ofNat (48 + n) else Char.ofNat (55 + n)

/-- Bytes left unescaped by Node's `querystring` encoder:
alphanumerics and `! ' ( ) * - . _ ~`. -/
def qsUnreservedByte (b : Nat) : Bool :=
  (48 ≤ b && b ≤ 57) || (65 ≤ b && b ≤ 90) || (97 ≤ b && b ≤ 122) ||
  b == 33 || b == 39 || b == 40 || b == 41 || b == 42 || b == 45 ||
  b == 46 || b == 95 || b == 126

/-- Percent-encode a single byte unless it is unreserved. -/
def qsEscapeByte (b : Nat) : String :=
  if qsUnreservedByte b then String.singleton (Char.ofNat b)
  else "%" ++ String.singleton (hexDigit (b / 16)) ++ String.singleton (hexDigit (b % 16))

/-- UTF-8 byte sequence of a character. -/
def utf8Bytes (c : Char) : List Nat :=
  let n := c.toNat
  if n < 0x80 then [n]
  else if n < 0x800 then [0xC0 + n / 64, 0x80 + n % 64]
  else if n < 0x10000 then [0xE0 + n / 4096, 0x80 + (n / 64) % 64, 0x80 + n % 64]
  else [0xF0 + n / 262144, 0x80 + (n / 4096) % 64, 0x80 + (n / 64) % 64, 0x80 + n % 64]

/-- `querystring.escape`: percent-encode the UTF-8 bytes of the string. -/
def qsEscape (s : String) : String :=
  String.join (s.data.map fun c => String.join ((utf8Bytes c).map qsEscapeByte))

/-- One `key=value` pair of `querystring.stringify`. After
`qserializeMutate` only the `qstr` case occurs; the other two cases follow
Node's stringifier (arrays as repeated keys, `undefined` as empty value)
for totality. -/
def qsStringifyEntry : String × QVal → String
  | (k, QVal.qstr v) => qsEscape k ++ "=" ++ qsEscape v
  | (k, QVal.undef) => qsEscape k ++ "="
  | (k, QVal.qarr a) =>
    String.intercalate "&" (a.map fun v => qsEscape k ++ "=" ++ qsEscape v)

/-- `querystring.stringify`: the pairs joined with `&`. -/
def qsStringify (entries : List (String × QVal)) : String :=
  String.intercalate "&" (entries.map qsStringifyEntry)

/-- Translation of `Serializer.qserialize`. The first component of the
result is the state of the argument after the call (the source mutates the
mapping in place); the second is the returned string. -/
def qserialize : QInput → QInput × String
  | .qnull => (.qnull, "")
  | .qstring s => (.qstring s, s)
  | .qmap entries =>
    let mutated := qserializeMutate entries
    (.qmap mutated, qsStringify mutated)

/-- Modelled from the spec: "drop keys whose value is undefined, join
array values with `,`" — as a pure function on a copy of the mapping. -/
def specCleanedEntries (entries : List (String × QVal)) : List (String × QVal) :=
  entries.filterMap fun e =>
    match e.2 with
    | .undef => none
    | .qarr a => some (e.1, QVal.qstr (String.intercalate "," a))
    | .qstr s => some (e.1, QVal.qstr s)

/-! ## Transport attempt loop (`lib/Transport.js` lines 96-273) -/

/-- The `params.body` / `params.bulkBody` value handed to
`Transport.request`: absent, a string, a stream, a binary buffer, or a
plain object (`objBody json` is an object whose JSON serialization is
`json`). -/
inductive RequestBody where
  | noBody
  | strBody (s : String)
  | streamBody
  | bufferBody (bytes : String)
  | objBody (json : String)
deriving Repr, DecidableEq

/-- Translation of `shouldSerialize` (`lib/Transport.js`): not a string,
not a stream (`typeof obj.pipe !== 'function'`), not a Buffer. -/
def shouldSerialize : RequestBody → Bool
  | .objBody _ => true
  | _ => false

/-- Translation of `isStream` (`lib/Transport.js`). -/
def isStreamBody : RequestBody → Bool
  | .streamBody => true
  | _ => false

/-- JavaScript `options.maxRetries || this.maxRetries`
(`lib/Transport.js` line 96): `0` and `undefined` are falsy. This is the
COMPLETE retry-budget computation of the source — there is no stream-body
special case anywhere in `Transport.request`. -/
def jsOrNat (a : Option Nat) (b : Nat) : Nat :=
  match a with
  | some n => if n = 0 then b else n
  | none => b

/-- Value of `requestParams.body` after the body-encoding block of
`makeRequest` (compression disabled): objects are serialized, the empty
string is skipped, everything else is passed through. In the model
serialization of `objBody json` yields `json` and never throws. -/
def requestParamsBody : RequestBody → Option RequestBody
  | .noBody => none
  | .objBody json => some (.strBody json)
  | .strBody s => if s = "" then none else some (.strBody s)
  | .streamBody => some .streamBody
  | .bufferBody bytes => some (.bufferBody bytes)

/-- Outcome delivered by `Connection.request` to `onResponse` for one
attempt: a transport failure (timeout or socket error) or an HTTP
response with a status code. -/
inductive AttemptOutcome where
  | connFailure (isTimeout : Bool)
  | httpResponse (status : Nat)
deriving Repr, DecidableEq

/-- Error kinds `onResponse` can surface to the user callback. Note that
`lib/errors.js` defines NO aborted-request error kind. -/
inductive ErrorKind where
  | timeoutError
  | connectionError
  | responseError
deriving Repr, DecidableEq

/-- Terminal disposition of one `Transport.request` call: the callback
fired with an error, the callback fired with a result, `makeRequest`
returned silently because `meta.aborted` was set (no callback at all), or
the outcome script ran out with an attempt still in flight. -/
inductive RequestFinal where
  | callbackErr (e : ErrorKind)
  | callbackOk (status : Nat)
  | silentStop
  | inFlight
deriving Repr, DecidableEq

/-- Whether the user callback was invoked. -/
def callbackFired : RequestFinal → Bool
  | .callbackErr _ => true
  | .callbackOk _ => true
  | .silentStop => false
  | .inFlight => false

/-- The `if (meta.aborted === true) return` guard at the top of
`makeRequest`: `abortedFrom = some k` means `abort()` ran before the k-th
`makeRequest` invocation (equivalently while `meta.attempts` < k was still
being incremented), so every invocation with `attempts ≥ k` sees the flag. -/
def abortSeen (abortedFrom : Option Nat) (attempts : Nat) : Bool :=
  match abortedFrom with
  | some k => decide (k ≤ attempts)
  | none => false

/-- Translation of the `makeRequest` / `onResponse` attempt loop of
`Transport.request`. Arguments: the outcome script (one entry per
completed connection attempt), `meta.attempts`, and the count of
connection attempts issued so far. Returns the final issued-attempt count
and the terminal disposition. Connection selection is abstracted as
always succeeding (the claims under verification concern the retry and
abort logic, not pool selection). -/
def attemptLoop (maxRetries : Nat) (abortedFrom : Option Nat) (ignore : List Nat)
    (isHead : Bool) : List AttemptOutcome → Nat → Nat → Nat × RequestFinal
  | [], attempts, made =>
    if abortSeen abortedFrom attempts then (made, .silentStop)
    else (made + 1, .inFlight)
  | o :: rest, attempts, made =>
    if abortSeen abortedFrom attempts then (made, .silentStop)
    else
      match o with
      | .connFailure isTimeout =>
        if attempts < maxRetries then
          attemptLoop maxRetries abortedFrom ignore isHead rest (attempts + 1) (made + 1)
        else
          (made + 1, .callbackErr (if isTimeout then .timeoutError else .connectionError))
      | .httpResponse status =>
        let ignoreSC := ignore.contains status || (isHead && status == 404)
        if ignoreSC = false ∧ (status = 502 ∨ status = 503 ∨ status = 504) then
          if attempts < maxRetries ∧ status ≠ 429 then
            attemptLoop maxRetries abortedFrom ignore isHead rest (attempts + 1) (made + 1)
          else (made + 1, .callbackErr .responseError)
        else if ignoreSC = false ∧ 400 ≤ status then
          (made + 1, .callbackErr .responseError)
        else (made + 1, .callbackOk status)

/-- Observable result of one `Transport.request` call in the model. -/
structure RunResult where
  wireBody : Option RequestBody
  attemptsMade : Nat
  final : RequestFinal
deriving Repr, DecidableEq

/-- One `Transport.request` call: resolve the retry budget
(`options.maxRetries || this.maxRetries`, line 96 — the body is NOT
consulted), encode the body, and run the attempt loop. -/
def transportRequestRun (optionsMaxRetries : Option Nat) (transportMaxRetries : Nat)
    (body : RequestBody) (ignore : List Nat) (isHead : Bool)
    (abortedFrom : Option Nat) (outcomes : List AttemptOutcome) : RunResult :=
  let maxRetries := jsOrNat optionsMaxRetries transportMaxRetries
  let r := attemptLoop maxRetries abortedFrom ignore isHead outcomes 0 0
  { wireBody := requestParamsBody body, attemptsMade := r.1, final := r.2 }

/-! ## Theorems for C9, C1, C2 -/

/-- Helper: the imperative key loop of `qserialize` computes exactly the
spec-side cleanup (drop undefined keys, join arrays) — but on the mapping
itself, not on a copy. -/
theorem qserializeMutate_eq_specCleanedEntries :
    ∀ entries : List (String × QVal),
      qserializeMutate entries = specCleanedEntries entries := by
  intro entries
  induction entries with
  | nil => rfl
  | cons e rest ih =>
    obtain ⟨k, v⟩ := e
    cases v <;> simp [qserializeMutate, specCleanedEntries, List.filterMap_cons] <;>
      simpa [specCleanedEntries] using ih

/-- C9 counterexample: `qserialize` is not pure — it mutates its input
mapping. On `{a: ["1","2"], b: undefined, c: "x"}` the call deletes the
key `b` and replaces the array value of `a` with the joined string
`"1,2"`, so the mapping after the call differs from the mapping before. -/
theorem qserialize_mutates_input :
    (qserialize (.qmap [("a", .qarr ["1", "2"]), ("b", .undef), ("c", .qstr "x")])).1 ≠
      .qmap [("a", .qarr ["1", "2"]), ("b", .undef), ("c", .qstr "x")] ∧
    qserialize (.qmap [("a", .qarr ["1", "2"]), ("b", .undef), ("c", .qstr "x")]) =
      (.qmap [("a", .qstr "1,2"), ("c", .qstr "x")], "a=1%2C2&c=x") := by
  constructor
  · decide
  · rfl

/-- C9 (amended): `qserialize` returns `""` for null/absent input and
string input unchanged; for a mapping it produces the form-encoded string
in which keys with undefined values are dropped and array values are
comma-joined — but it obtains that shape by mutating the input mapping in
place (deleting the undefined keys and replacing the array values), so
the mapping after the call equals the cleaned mapping, not the original. -/
theorem qserialize_characterization :
    qserialize .qnull = (.qnull, "") ∧
    (∀ s : String, qserialize (.qstring s) = (.qstring s, s)) ∧
    (∀ entries : List (String × QVal),
      (qserialize (.qmap entries)).1 = .qmap (specCleanedEntries entries) ∧
      (qserialize (.qmap entries)).2 = qsStringify (specCleanedEntries entries)) := by
  refine ⟨rfl, fun s => rfl, fun entries => ?_⟩
  have h := qserializeMutate_eq_specCleanedEntries entries
  constructor <;> simp [qserialize, h]

/-- Helper for C1: the attempt loop never issues more than
`maxRetries + 1` connection attempts beyond those already made. -/
theorem attemptLoop_made_le (mr : Nat) (ab : Option Nat) (ig : List Nat) (hd : Bool) :
    ∀ (outs : List AttemptOutcome) (attempts made : Nat),
      (attemptLoop mr ab ig hd outs attempts made).1 ≤ made + (mr - attempts) + 1 := by
  intro outs
  induction outs with
  | nil =>
    intro attempts made
    simp only [attemptLoop]
    split <;> simp <;> omega
  | cons o rest ih =>
    intro attempts made
    cases o with
    | connFailure isTimeout =>
      simp only [attemptLoop]
      split
      · simp <;> omega
      · split
        · rename_i hab hlt
          have := ih (attempts + 1) (made + 1)
          omega
        · simp <;> omega
    | httpResponse status =>
      simp only [attemptLoop]
      split
      · simp <;> omega
      · split
        · split
          · rename_i hab hcode hretry
            obtain ⟨hlt, -⟩ := hretry
            have := ih (attempts + 1) (made + 1)
            omega
          · simp <;> omega
        · split <;> simp <;> omega

/-- C1 counterexample: with a stream body (`isStream(params.body)` true)
and transport-level `maxRetries = 3`, a transport failure on the first
attempt IS retried — a second connection attempt is made and succeeds —
because `Transport.request` computes `maxRetries = options.maxRetries ||
this.maxRetries` with no stream-body special case, contradicting "the
effective retry budget is 0" for stream bodies. -/
theorem streamBody_request_is_retried :
    isStreamBody RequestBody.streamBody = true ∧
    (transportRequestRun none 3 .streamBody [] false none
        [.connFailure false, .httpResponse 200]).attemptsMade = 2 ∧
    (transportRequestRun none 3 .streamBody [] false none
        [.connFailure false, .httpResponse 200]).final = .callbackOk 200 := by
  decide

/-- C1 (amended): the retry budget is `options.maxRetries ||
transport.maxRetries` for EVERY body kind — stream bodies included: the
attempt count and terminal disposition of a request are independent of
the body, and the number of connection attempts issued is at most
`maxRetries + 1`. -/
theorem maxRetries_ignores_stream_bodies :
    ∀ (optMax : Option Nat) (tMax : Nat) (b b' : RequestBody) (ig : List Nat)
      (hd : Bool) (ab : Option Nat) (outs : List AttemptOutcome),
      (transportRequestRun optMax tMax b ig hd ab outs).attemptsMade =
        (transportRequestRun optMax tMax b' ig hd ab outs).attemptsMade ∧
      (transportRequestRun optMax tMax b ig hd ab outs).final =
        (transportRequestRun optMax tMax b' ig hd ab outs).final ∧
      (transportRequestRun optMax tMax b ig hd ab outs).attemptsMade ≤
        jsOrNat optMax tMax + 1 := by
  intro optMax tMax b b' ig hd ab outs
  refine ⟨rfl, rfl, ?_⟩
  have h := attemptLoop_made_le (jsOrNat optMax tMax) ab ig hd outs 0 0
  simpa [transportRequestRun] using h

/-- Helper for C2: once `meta.aborted` is set before the k-th
`makeRequest` invocation, no attempt at or after position k is issued. -/
theorem attemptLoop_abort_bound (mr k : Nat) (ig : List Nat) (hd : Bool) :
    ∀ (outs : List AttemptOutcome) (attempts made : Nat),
      (attemptLoop mr (some k) ig hd outs attempts made).1 ≤ made + (k - attempts) := by
  intro outs
  induction outs with
  | nil =>
    intro attempts made
    simp only [attemptLoop]
    split
    · simp <;> omega
    · rename_i hfalse
      have hak : attempts < k := by
        by_contra hc
        exact hfalse (by simp [abortSeen]; omega)
      simp <;> omega
  | cons o rest ih =>
    intro attempts made
    cases o with
    | connFailure isTimeout =>
      simp only [attemptLoop]
      split
      · simp <;> omega
      · rename_i hfalse
        have hak : attempts < k := by
          by_contra hc
          exact hfalse (by simp [abortSeen]; omega)
        split
        · have := ih (attempts + 1) (made + 1)
          omega
        · simp <;> omega
    | httpResponse status =>
      simp only [attemptLoop]
      split
      · simp <;> omega
      · rename_i hfalse
        have hak : attempts < k := by
          by_contra hc
          exact hfalse (by simp [abortSeen]; omega)
        split
        · split
          · have := ih (attempts + 1) (made + 1)
            omega
          · simp <;> omega
        · split <;> simp <;> omega

/-- C2 counterexample: if `abort()` runs before `makeRequest` (the
`abortedFrom = some 0` schedule), the guard `if (meta.aborted === true)
return` exits silently: the user callback never fires at all — in
particular NOT "exactly once with a RequestAbortedError" (no such error
kind even exists in `lib/errors.js`) — and no connection attempt is made. -/
theorem abort_never_fires_callback :
    (transportRequestRun none 3 .noBody [] false (some 0) [.httpResponse 200]).final =
      .silentStop ∧
    callbackFired (transportRequestRun none 3 .noBody [] false (some 0)
        [.httpResponse 200]).final = false ∧
    (transportRequestRun none 3 .noBody [] false (some 0)
        [.httpResponse 200]).attemptsMade = 0 := by
  decide

/-- C2 (amended): when `abort()` is invoked before a `makeRequest`
invocation (initial or retry), the request stops without ever invoking the
user callback — `makeRequest` simply returns — and no connection attempt
is issued at or after the abort point; in particular an abort before the
first invocation issues no attempt at all and fires no callback. -/
theorem abort_stops_request_silently :
    ∀ (optMax : Option Nat) (tMax : Nat) (b : RequestBody) (ig : List Nat)
      (hd : Bool) (k : Nat) (outs : List AttemptOutcome),
      (transportRequestRun optMax tMax b ig hd (some k) outs).attemptsMade ≤ k ∧
      (transportRequestRun optMax tMax b ig hd (some 0) outs).final = .silentStop ∧
      (transportRequestRun optMax tMax b ig hd (some 0) outs).attemptsMade = 0 ∧
      callbackFired (transportRequestRun optMax tMax b ig hd (some 0) outs).final =
        false := by
  intro optMax tMax b ig hd k outs
  refine ⟨?_, ?_, ?_, ?_⟩
  · have h := attemptLoop_abort_bound (jsOrNat optMax tMax) k ig hd outs 0 0
    simpa [transportRequestRun] using h
  all_goals cases outs <;> rfl

/-! ## Standard ConnectionPool health tracking (`ConnectionPool.markAlive`,
`ConnectionPool.markDead`). The pool's cached `size` field always equals
`connections.length` (maintained by the BaseConnectionPool constructor,
`update` and `empty`), so the single-endpoint guard is modelled with
`connections.length`. -/

/-- Connection health status (`Connection.statuses`). -/
inductive ConnStatus where
  | alive
  | dead
deriving Repr, DecidableEq

/-- Health-relevant slice of a Connection: identity, status, and the two
backoff counters (`lib/Connection.js` initializes `deadCount = 0`,
`resurrectTimeout = 0`). -/
structure PoolConn where
  id : String
  status : ConnStatus
  deadCount : Nat
  resurrectTimeout : Nat
deriving Repr, DecidableEq

/-- Standard connection pool state: the ordered Connection list, the dead
id list, and the sniffing flag that parameterizes the single-endpoint
guard. -/
structure ConnPool where
  connections : List PoolConn
  dead : List String
  sniffEnabled : Bool
deriving Repr, DecidableEq

/-- `this.resurrectTimeout = 1000 * 60` of the ConnectionPool constructor
(the base backoff, in milliseconds; never reassigned). -/
def resurrectTimeoutBase : Nat := 1000 * 60

/-- `this.resurrectTimeoutCutoff = 5` of the ConnectionPool constructor. -/
def resurrectTimeoutCutoff : Nat := 5

/-- Translation of `ConnectionPool.markAlive`: single-endpoint guard, then
remove the id from the dead list, set status alive, reset `deadCount` and
`resurrectTimeout`. -/
def markAlive (p : ConnPool) (connId : String) : ConnPool :=
  if p.sniffEnabled = false ∧ p.connections.length = 1 then p
  else
    { p with
      dead := p.dead.erase connId,
      connections := p.connections.map fun c =>
        if c.id = connId then
          { c with status := ConnStatus.alive, deadCount := 0, resurrectTimeout := 0 }
        else c }

/-- Mutation `markDead` applies to the target Connection:
`connection.deadCount++` followed by `connection.resurrectTimeout =
Date.now() + this.resurrectTimeout * Math.pow(2,
Math.min(connection.deadCount - 1, this.resurrectTimeoutCutoff))` — the
exponent reads the already-incremented `deadCount`. -/
def markDeadUpd (now : Nat) (c : PoolConn) : PoolConn :=
  { c with
    status := ConnStatus.dead,
    deadCount := c.deadCount + 1,
    resurrectTimeout := now + resurrectTimeoutBase *
      2 ^ (min (c.deadCount + 1 - 1) resurrectTimeoutCutoff) }

/-- Sort key of the dead-list comparator: the `resurrectTimeout` of the
Connection found by id (the comparator dereferences
`this.connections.find(c => c.id === a)`). -/
def deadSortKey (conns : List PoolConn) (connId : String) : Nat :=
  match conns.find? (fun c => c.id == connId) with
  | some c => c.resurrectTimeout
  | none => 0

/-- Stable insertion of an id into an ascending (by key) id list. -/
def insertAscBy (key : String → Nat) (x : String) : List String → List String
  | [] => [x]
  | y :: ys => if key x < key y then x :: y :: ys else y :: insertAscBy key x ys

/-- Stable ascending sort by key (models `Array.prototype.sort` with the
numeric comparator, which is stable in modern engines). -/
def sortAscBy (key : String → Nat) (l : List String) : List String :=
  l.foldl (fun acc x => insertAscBy key x acc) []

/-- Translation of `ConnectionPool.markDead`: single-endpoint guard; push
the id onto the dead list if absent; mutate the Connection via
`markDeadUpd`; re-sort the dead list by the post-mutation
`resurrectTimeout` values. -/
def markDead (p : ConnPool) (now : Nat) (connId : String) : ConnPool :=
  if p.sniffEnabled = false ∧ p.connections.length = 1 then p
  else
    let deadPushed := if p.dead.contains connId then p.dead else p.dead ++ [connId]
    let conns := p.connections.map fun c =>
      if c.id = connId then markDeadUpd now c else c
    { p with connections := conns, dead := sortAscBy (deadSortKey conns) deadPushed }

/-- Look up a Connection by id (`this.connections.find(c => c.id === id)`). -/
def findConn (p : ConnPool) (connId : String) : Option PoolConn :=
  p.connections.find? (fun c => c.id == connId)

/-- Helper: a by-id find over an id-preserving keyed update commutes with
the update. -/
theorem find_map_keyUpdate (connId : String) (f : PoolConn → PoolConn)
    (hf : ∀ c, (f c).id = c.id) :
    ∀ l : List PoolConn,
      (l.map fun c => if c.id = connId then f c else c).find? (fun c => c.id == connId)
        = (l.find? (fun c => c.id == connId)).map f := by
  intro l
  induction l with
  | nil => rfl
  | cons x xs ih =>
    simp only [List.map_cons, List.find?_cons]
    by_cases hx : x.id = connId
    · simp [hx, hf]
    · have hb : (x.id == connId) = false := by simp [hx]
      simp [hx, hb, ih]

/-- Helper: with pairwise-distinct ids, the by-id find returns the member
itself. -/
theorem find?_eq_of_mem_of_nodupIds (c : PoolConn) :
    ∀ l : List PoolConn, c ∈ l → (l.map PoolConn.id).Nodup →
      l.find? (fun c2 => c2.id == c.id) = some c := by
  intro l
  induction l with
  | nil => intro h; cases h
  | cons x xs ih =>
    intro hmem hnd
    simp only [List.map_cons, List.nodup_cons] at hnd
    rcases List.mem_cons.mp hmem with rfl | hx
    · simp [List.find?_cons]
    · have hidmem : c.id ∈ xs.map PoolConn.id := List.mem_map_of_mem PoolConn.id hx
      have hne : ¬ (x.id = c.id) := fun he => hnd.1 (he ▸ hidmem)
      simp [List.find?_cons, hne, ih hx hnd.2]

/-- Helper: the keyed update of `markDead`/`markAlive` preserves the id
list of the pool. -/
theorem map_id_keyUpdate (connId : String) (f : PoolConn → PoolConn)
    (hf : ∀ c, (f c).id = c.id) (l : List PoolConn) :
    (l.map fun c => if c.id = connId then f c else c).map PoolConn.id =
      l.map PoolConn.id := by
  induction l with
  | nil => rfl
  | cons x xs ih =>
    simp only [List.map_cons, List.map_map] at *
    by_cases hx : x.id = connId <;> simp [hx, hf, ih]

/-- Helper: `markDead` never changes the sniffing flag. -/
theorem markDead_sniffEnabled (p : ConnPool) (now : Nat) (connId : String) :
    (markDead p now connId).sniffEnabled = p.sniffEnabled := by
  unfold markDead
  split <;> rfl

/-- Helper: `markDead` never changes the number of Connections. -/
theorem markDead_length (p : ConnPool) (now : Nat) (connId : String) :
    (markDead p now connId).connections.length = p.connections.length := by
  unfold markDead
  split <;> simp

/-- Helper: `markDead` never changes the id list of the pool. -/
theorem markDead_mapId (p : ConnPool) (now : Nat) (connId : String) :
    (markDead p now connId).connections.map PoolConn.id =
      p.connections.map PoolConn.id := by
  unfold markDead
  split
  · rfl
  · exact map_id_keyUpdate connId (markDeadUpd now) (fun c2 => rfl) p.connections

/-- Helper: on a pool where the single-endpoint guard does not fire,
`markDead` replaces the target Connection (identified by id, ids being
pairwise distinct) by its `markDeadUpd` image. -/
theorem findConn_markDead (p : ConnPool) (now : Nat) (c : PoolConn)
    (hg : ¬ (p.sniffEnabled = false ∧ p.connections.length = 1))
    (hmem : c ∈ p.connections)
    (hnodup : (p.connections.map PoolConn.id).Nodup) :
    findConn (markDead p now c.id) c.id = some (markDeadUpd now c) := by
  unfold markDead
  rw [if_neg hg]
  unfold findConn
  simp only []
  rw [find_map_keyUpdate c.id (markDeadUpd now) (fun c2 => rfl) p.connections,
    find?_eq_of_mem_of_nodupIds c p.connections hmem hnodup]
  rfl

/-- C3: in a standard pool with more than one Connection or sniffing
enabled, `markDead` sets the target's `resurrectTimeout` to
`now + 60000 * 2^min(deadCount - 1, 5)` where `deadCount` is the value
after incrementing; successive `markDead` calls without an intervening
`markAlive` (at non-decreasing clock values) therefore produce
non-decreasing `resurrectTimeout` values whose offset from `now` doubles
each time until it caps at `60000 * 2^5`. -/
theorem markDead_backoff (p : ConnPool) (c : PoolConn) (now now2 : Nat)
    (hguard : p.sniffEnabled = true ∨ 1 < p.connections.length)
    (hmem : c ∈ p.connections)
    (hnodup : (p.connections.map PoolConn.id).Nodup) :
    (findConn (markDead p now c.id) c.id).map PoolConn.deadCount =
        some (c.deadCount + 1) ∧
    (findConn (markDead p now c.id) c.id).map PoolConn.resurrectTimeout =
        some (now + 60000 * 2 ^ min c.deadCount 5) ∧
    (findConn (markDead (markDead p now c.id) now2 c.id) c.id).map
        PoolConn.resurrectTimeout =
        some (now2 + 60000 * 2 ^ min (c.deadCount + 1) 5) ∧
    (now ≤ now2 →
      now + 60000 * 2 ^ min c.deadCount 5 ≤
        now2 + 60000 * 2 ^ min (c.deadCount + 1) 5) ∧
    (c.deadCount + 1 ≤ 5 →
      60000 * 2 ^ min (c.deadCount + 1) 5 = 2 * (60000 * 2 ^ min c.deadCount 5)) ∧
    60000 * 2 ^ min (c.deadCount + 1) 5 ≤ 60000 * 2 ^ 5 := by
  have hg : ¬ (p.sniffEnabled = false ∧ p.connections.length = 1) := by
    rcases hguard with h | h
    · intro hc
      rw [h] at hc
      simp at hc
    · intro hc
      omega
  have hfind1 := findConn_markDead p now c hg hmem hnodup
  have hmem1 : markDeadUpd now c ∈ (markDead p now c.id).connections :=
    List.mem_of_find?_eq_some hfind1
  have hnodup1 : ((markDead p now c.id).connections.map PoolConn.id).Nodup := by
    rw [markDead_mapId]
    exact hnodup
  have hg1 : ¬ ((markDead p now c.id).sniffEnabled = false ∧
      (markDead p now c.id).connections.length = 1) := by
    rw [markDead_sniffEnabled, markDead_length]
    exact hg
  have hfind2 : findConn (markDead (markDead p now c.id) now2 c.id) c.id =
      some (markDeadUpd now2 (markDeadUpd now c)) :=
    findConn_markDead (markDead p now c.id) now2 (markDeadUpd now c) hg1 hmem1 hnodup1
  have hpowmono : 2 ^ min c.deadCount 5 ≤ 2 ^ min (c.deadCount + 1) 5 :=
    Nat.pow_le_pow_right (by norm_num)
      (min_le_min (Nat.le_succ c.deadCount) (le_refl 5))
  refine ⟨?_, ?_, ?_, ?_, ?_, ?_⟩
  · rw [hfind1]
    rfl
  · rw [hfind1]
    simp [markDeadUpd, resurrectTimeoutBase, resurrectTimeoutCutoff]
  · rw [hfind2]
    simp [markDeadUpd, resurrectTimeoutBase, resurrectTimeoutCutoff]
  · intro hnow
    exact Nat.add_le_add hnow (Nat.mul_le_mul_left 60000 hpowmono)
  · intro hcap
    rw [min_eq_left hcap, min_eq_left (by omega)]
    ring
  · exact Nat.mul_le_mul_left 60000
      (Nat.pow_le_pow_right (by norm_num) (min_le_right _ _))

/-- C3 witness: a two-Connection pool without sniffing; the first
`markDead` of the Connection `"a"` (deadCount 0) at time 100 sets its
resurrectTimeout to `100 + 60000 * 2^0`. -/
theorem markDead_backoff_witness :
    (findConn
        (markDead ⟨[⟨"a", ConnStatus.alive, 0, 0⟩, ⟨"b", ConnStatus.alive, 0, 0⟩],
          [], false⟩ 100 "a") "a").map PoolConn.resurrectTimeout =
      some (100 + 60000 * 2 ^ min 0 5) :=
  (markDead_backoff
    ⟨[⟨"a", ConnStatus.alive, 0, 0⟩, ⟨"b", ConnStatus.alive, 0, 0⟩], [], false⟩
    ⟨"a", ConnStatus.alive, 0, 0⟩ 100 200 (Or.inr (by decide)) (by decide)
    (by decide)).2.1

/-- A sequence of health operations against a pool. -/
inductive PoolOp where
  | opDead (now : Nat) (connId : String)
  | opAlive (connId : String)
deriving Repr, DecidableEq

/-- Apply a sequence of `markDead` / `markAlive` calls in order. -/
def applyPoolOps (p : ConnPool) : List PoolOp → ConnPool
  | [] => p
  | PoolOp.opDead now connId :: rest => applyPoolOps (markDead p now connId) rest
  | PoolOp.opAlive connId :: rest => applyPoolOps (markAlive p connId) rest

/-- C4: in a standard pool with sniffing disabled and exactly one
Connection, `markDead` and `markAlive` are no-ops — the sole Connection's
status, deadCount, resurrectTimeout and the pool's dead list are unchanged
by any number of such calls, so the only endpoint is never moved to dead. -/
theorem singleNodePool_immortal (p : ConnPool)
    (hs : p.sniffEnabled = false) (hl : p.connections.length = 1) :
    (∀ (now : Nat) (connId : String), markDead p now connId = p) ∧
    (∀ connId : String, markAlive p connId = p) ∧
    (∀ ops : List PoolOp, applyPoolOps p ops = p) := by
  have hd : ∀ (now : Nat) (connId : String), markDead p now connId = p := by
    intro now connId
    unfold markDead
    rw [if_pos ⟨hs, hl⟩]
  have ha : ∀ connId : String, markAlive p connId = p := by
    intro connId
    unfold markAlive
    rw [if_pos ⟨hs, hl⟩]
  refine ⟨hd, ha, ?_⟩
  intro ops
  induction ops with
  | nil => rfl
  | cons op rest ih =>
    cases op with
    | opDead now connId =>
      rw [applyPoolOps, hd, ih]
    | opAlive connId =>
      rw [applyPoolOps, ha, ih]

/-- C4 witness: a one-Connection pool without sniffing is untouched by a
markDead, another markDead, and a markAlive. -/
theorem singleNodePool_immortal_witness :
    applyPoolOps ⟨[⟨"only", ConnStatus.alive, 0, 0⟩], [], false⟩
        [PoolOp.opDead 5 "only", PoolOp.opDead 99 "only", PoolOp.opAlive "only"] =
      ⟨[⟨"only", ConnStatus.alive, 0, 0⟩], [], false⟩ :=
  (singleNodePool_immortal ⟨[⟨"only", ConnStatus.alive, 0, 0⟩], [], false⟩ rfl
    rfl).2.2 [PoolOp.opDead 5 "only", PoolOp.opDead 99 "only", PoolOp.opAlive "only"]

/-! ## `Connection.request` open-request accounting
(`lib/Connection.js` lines 60-117) -/

/-- Characters the path check rejects: anything outside U+0021..U+00FF
(`INVALID_PATH_REGEX = /[^!-ÿ]/`). -/
def invalidPathChar (c : Char) : Bool :=
  c.toNat < 0x21 || 0xff < c.toNat

/-- `INVALID_PATH_REGEX.test(path)`. -/
def pathIsInvalid (path : String) : Bool :=
  path.data.any invalidPathChar

/-- Translation of `resolve` (`lib/Connection.js`): join the Connection's
pathname and the request path with exactly one slash. -/
def resolvePath (host path : String) : String :=
  let hostEndsSlash := host.data.getLast? == some '/'
  let pathStartsSlash := path.data.head? == some '/'
  if hostEndsSlash && pathStartsSlash then host ++ String.mk (path.data.drop 1)
  else if hostEndsSlash != pathStartsSlash then host ++ path
  else host ++ "/" ++ path

/-- `request.search` after merging `params.querystring` in
`buildRequestObject`: appended with `?` or `&`; a missing or empty
querystring (`!!params[key] === true` fails) leaves the URL search
untouched. -/
def mergedSearch (urlSearch : String) (querystring : Option String) : String :=
  match querystring with
  | some qs =>
    if qs ≠ "" then (if urlSearch = "" then "?" ++ qs else urlSearch ++ "&" ++ qs)
    else urlSearch
  | none => urlSearch

/-- Terminal events the HTTP layer can deliver for one request; only the
first one acts because the `ended` flag guards every handler. -/
inductive HttpEvent where
  | response
  | timeout
  | socketErr
  | abortEvt
deriving Repr, DecidableEq

/-- Callback invocations observable from `Connection.request`: a response
delivery, a `TimeoutError`, a socket error, or the early
`ERR_UNESCAPED_CHARACTERS` `TypeError`. The `abort` event fires no
callback. -/
inductive ConnCallback where
  | okResponse
  | timeoutErr
  | sockErr
  | invalidPathErr
deriving Repr, DecidableEq

/-- Event processing of an issued request: the first terminal event sets
`ended`, decrements `_openRequests`, and (except for `abort`) fires the
callback; later events are ignored. -/
def processHttpEvents (opens : Nat) : List HttpEvent → Nat × List ConnCallback
  | [] => (opens, [])
  | HttpEvent.response :: _ => (opens - 1, [ConnCallback.okResponse])
  | HttpEvent.timeout :: _ => (opens - 1, [ConnCallback.timeoutErr])
  | HttpEvent.socketErr :: _ => (opens - 1, [ConnCallback.sockErr])
  | HttpEvent.abortEvt :: _ => (opens - 1, [])

/-- Translation of `Connection.request`: increment `_openRequests` on
entry, build the request path, reject paths with characters outside
U+0021..U+00FF by firing the callback with a `TypeError` and returning —
WITHOUT decrementing `_openRequests` — else issue the request and let the
first terminal event decrement. Returns the final `_openRequests` and the
callback invocations. -/
def connRequestRun (openRequests : Nat) (urlPathname urlSearch : String)
    (path : String) (querystring : Option String)
    (events : List HttpEvent) : Nat × List ConnCallback :=
  let opens := openRequests + 1
  let fullPath := resolvePath urlPathname path ++ mergedSearch urlSearch querystring
  if pathIsInvalid fullPath then (opens, [ConnCallback.invalidPathErr])
  else processHttpEvents opens events

/-- C8: `Connection.request` increments `_openRequests` on entry and
decrements it on the first terminal event — response, error, abort or
timeout — restoring the pre-call value; but on the early-error path for a
path containing characters outside U+0021..U+00FF the callback fires with
the `TypeError` and `_openRequests` is NEVER decremented: it remains one
above its pre-call value, so the accounting claim fails exactly there
(and `close`, which waits for `_openRequests == 0`, would re-schedule
itself forever). -/
theorem connRequest_openRequests_leak :
    connRequestRun 0 "/" "" "/hello world" none [HttpEvent.response] =
      (1, [ConnCallback.invalidPathErr]) ∧
    connRequestRun 0 "/" "" "/hello" none [HttpEvent.response] =
      (0, [ConnCallback.okResponse]) ∧
    connRequestRun 0 "/" "" "/hello" none [HttpEvent.timeout] =
      (0, [ConnCallback.timeoutErr]) ∧
    connRequestRun 0 "/" "" "/hello" none [HttpEvent.socketErr] =
      (0, [ConnCallback.sockErr]) ∧
    connRequestRun 0 "/" "" "/hello" none [HttpEvent.abortEvt] = (0, []) := by
  decide

/-! ## `BaseConnectionPool.update` (`lib/pool/BaseConnectionPool.js`
lines 87-118). JavaScript object identity of a Connection is modelled with
a numeric `tag`; `newConnections` holds references, modelled as a tag list
resolved against the final object store, so later in-place mutations
(re-keying) are visible through earlier pushes, as in the source. Auth,
TLS and agent defaulting of `createConnection` do not affect identity and
are not modelled. Incoming nodes always carry an `id`, as the descriptors
produced by `nodesToHost` do. -/

/-- Incoming node descriptor: discovery id and URL href. -/
structure UpdNode where
  id : String
  urlHref : String
deriving Repr, DecidableEq

/-- A pool Connection as `update` observes it: identity tag, current id,
and URL href. -/
structure BConn where
  tag : Nat
  id : String
  urlHref : String
deriving Repr, DecidableEq

/-- Base pool state: Connection list and the next fresh identity tag. -/
structure BasePool where
  connections : List BConn
  nextTag : Nat
deriving Repr, DecidableEq

/-- Intermediate state of the `update` loop: `olds` is `this.connections`
(re-keying mutates it in place), `news` the tags pushed onto
`newConnections`, `created` the Connections built by `createConnection`,
and `dupErr` records the duplicate-id throw of `createConnection`. -/
structure UpdState where
  olds : List BConn
  news : List Nat
  created : List BConn
  nextTag : Nat
  dupErr : Bool
deriving Repr, DecidableEq

/-- One iteration of the `for (const node of nodes)` loop of `update`:
reuse by id (`connectionById`); else re-key the Connection whose CURRENT
ID equals the node's URL href (`connectionByUrl` is found by
`c.id === node.url.href`); else `createConnection` with its duplicate-id
check against `this.connections`. `markAlive` on this base pool is the
no-op `return this`. -/
def processNode (s : UpdState) (n : UpdNode) : UpdState :=
  if s.dupErr then s
  else
    match s.olds.find? (fun c => c.id == n.id) with
    | some c => { s with news := s.news ++ [c.tag] }
    | none =>
      match s.olds.find? (fun c => c.id == n.urlHref) with
      | some c =>
        { s with
          olds := s.olds.map fun c2 =>
            if c2.tag = c.tag then { c2 with id := n.id } else c2,
          news := s.news ++ [c.tag] }
      | none =>
        if s.olds.any (fun c => c.id == n.id) then { s with dupErr := true }
        else
          { s with
            created := s.created ++ [⟨s.nextTag, n.id, n.urlHref⟩],
            news := s.news ++ [s.nextTag],
            nextTag := s.nextTag + 1 }

/-- The node loop of `update`. -/
def updateLoop (s : UpdState) : List UpdNode → UpdState
  | [] => s
  | n :: rest => updateLoop (processNode s n) rest

/-- Translation of `BaseConnectionPool.update`: run the node loop, then
close every Connection of the (mutated) old list whose id is not among
the node ids, and install `newConnections` (references resolved against
the final objects). Returns the updated pool and the closed Connections,
`none` on the duplicate-id throw. -/
def baseUpdate (p : BasePool) (nodes : List UpdNode) :
    Option (BasePool × List BConn) :=
  let s := updateLoop ⟨p.connections, [], [], p.nextTag, false⟩ nodes
  if s.dupErr then none
  else
    let ids := nodes.map UpdNode.id
    let closed := s.olds.filter fun c => !(ids.contains c.id)
    let store := s.olds ++ s.created
    some
      ({ connections := s.news.filterMap fun t => store.find? (fun c => c.tag == t),
         nextTag := s.nextTag }, closed)

/-- C5 counterexample: a pool whose sole Connection has a custom id
`"node-1"` and URL `http://a/`, updated with a node of id `"node-2"` and
the SAME URL `http://a/`. The claim says the Connection's identity is
preserved because its URL is retained; but the source compares
`node.url.href` against Connection IDS (`c.id === node.url.href`), finds
nothing, creates a fresh Connection (tag 1) and closes and drops the old
one (tag 0). -/
theorem update_drops_url_matching_connection :
    (⟨0, "node-1", "http://a/"⟩ : BConn).urlHref =
        (⟨"node-2", "http://a/"⟩ : UpdNode).urlHref ∧
    baseUpdate ⟨[⟨0, "node-1", "http://a/"⟩], 1⟩ [⟨"node-2", "http://a/"⟩] =
      some (⟨[⟨1, "node-2", "http://a/"⟩], 2⟩, [⟨0, "node-1", "http://a/"⟩]) := by
  constructor
  · rfl
  · rfl

/-- Helper: a find whose predicate is satisfied by exactly one member
returns that member. -/
theorem find?_eq_some_of_unique {p : BConn → Bool} (c : BConn) :
    ∀ l : List BConn, c ∈ l → p c = true → (∀ x ∈ l, p x = true → x = c) →
      l.find? p = some c := by
  intro l
  induction l with
  | nil => intro h _ _; cases h
  | cons x xs ih =>
    intro hmem hpc huniq
    rcases List.mem_cons.mp hmem with rfl | hx
    · exact List.find?_cons_of_pos xs hpc
    · by_cases hpx : p x = true
      · have hxc : x = c := huniq x (List.mem_cons_self x xs) hpx
        subst hxc
        exact List.find?_cons_of_pos xs hpc
      · rw [List.find?_cons_of_neg xs (by simpa using hpx)]
        exact ih hx hpc fun y hy hpy => huniq y (List.mem_cons_of_mem x hy) hpy

/-- Helper: `processNode` keeps the identity-tag list of
`this.connections` — re-keying changes ids only. -/
theorem processNode_oldsTags (s : UpdState) (n : UpdNode) :
    (processNode s n).olds.map BConn.tag = s.olds.map BConn.tag := by
  unfold processNode
  split
  · rfl
  split
  · rfl
  · split
    · rename_i c hfound
      rw [List.map_map]
      apply List.map_congr_left
      intro c2 _
      by_cases h : c2.tag = c.tag <;> simp [h]
    · split <;> rfl

/-- Helper: `processNode` never decreases the fresh-tag counter. -/
theorem processNode_nextTag_le (s : UpdState) (n : UpdNode) :
    s.nextTag ≤ (processNode s n).nextTag := by
  unfold processNode
  split
  · exact le_refl _
  split
  · exact le_refl _
  · split
    · exact le_refl _
    · split
      · exact le_refl _
      · exact Nat.le_succ _

/-- Helper: tags already pushed onto `newConnections` stay pushed. -/
theorem processNode_news_mono (s : UpdState) (n : UpdNode) {t : Nat}
    (h : t ∈ s.news) : t ∈ (processNode s n).news := by
  unfold processNode
  split
  · exact h
  split
  · exact List.mem_append_left _ h
  · split
    · exact List.mem_append_left _ h
    · split
      · exact h
      · exact List.mem_append_left _ h

/-- Helper: the duplicate-id throw of `createConnection` is unreachable
inside `update`: the create branch runs only when `connectionById` was
`undefined`, which is the negation of the duplicate condition. -/
theorem processNode_dupErr (s : UpdState) (n : UpdNode)
    (h : s.dupErr = false) : (processNode s n).dupErr = false := by
  unfold processNode
  split
  · exact h
  split
  · exact h
  · rename_i hbyId
    split
    · exact h
    · split
      · rename_i hany
        exfalso
        rcases List.any_eq_true.mp hany with ⟨c, hc, hcid⟩
        exact (List.find?_eq_none.mp hbyId c hc) hcid
      · exact h

/-- State invariant of the update loop, relative to the pool's fresh-tag
counter at entry: old tags are pairwise distinct and below `startTag`;
created tags are at least `startTag`, strictly below `nextTag`, and
pairwise distinct; no duplicate-id throw has occurred. -/
def UpdInv (startTag : Nat) (s : UpdState) : Prop :=
  (s.olds.map BConn.tag).Nodup ∧
  (∀ x ∈ s.olds, x.tag < startTag) ∧
  startTag ≤ s.nextTag ∧
  (∀ x ∈ s.created, startTag ≤ x.tag ∧ x.tag < s.nextTag) ∧
  (s.created.map BConn.tag).Nodup ∧
  s.dupErr = false

/-- Helper: the update-loop invariant is preserved by one node step. -/
theorem processNode_UpdInv {startTag : Nat} {s : UpdState} (n : UpdNode)
    (h : UpdInv startTag s) : UpdInv startTag (processNode s n) := by
  obtain ⟨h1, h2, h3, h4, h5, h6⟩ := h
  refine ⟨?_, ?_, ?_, ?_, ?_, processNode_dupErr s n h6⟩
  · rw [processNode_oldsTags]
    exact h1
  · intro x hx
    have hxm : x.tag ∈ (processNode s n).olds.map BConn.tag :=
      List.mem_map_of_mem _ hx
    rw [processNode_oldsTags] at hxm
    rcases List.mem_map.mp hxm with ⟨y, hy, hyt⟩
    rw [← hyt]
    exact h2 y hy
  · exact le_trans h3 (processNode_nextTag_le s n)
  · unfold processNode
    split
    · exact h4
    split
    · exact h4
    · split
      · exact h4
      · split
        · exact h4
        · intro x hx
          rcases List.mem_append.mp hx with hx' | hx'
          · obtain ⟨ha, hb⟩ := h4 x hx'
            refine ⟨ha, ?_⟩
            show x.tag < s.nextTag + 1
            omega
          · rcases List.mem_singleton.mp hx' with rfl
            exact ⟨h3, Nat.lt_succ_self _⟩
  · unfold processNode
    split
    · exact h5
    split
    · exact h5
    · split
      · exact h5
      · split
        · exact h5
        · simp only [List.map_append, List.map_singleton]
          refine List.Nodup.append h5 (List.nodup_singleton _) ?_
          intro t ht ht'
          rcases List.mem_singleton.mp ht' with rfl
          rcases List.mem_map.mp ht with ⟨y, hy, hyt⟩
          have := (h4 y hy).2
          omega

/-- Helper: after one node step, every id in `this.connections` is an id
it already had or the processed node's id. -/
theorem processNode_ids_subset (s : UpdState) (n : UpdNode) :
    ∀ x ∈ (processNode s n).olds,
      (∃ y ∈ s.olds, x.id = y.id) ∨ x.id = n.id := by
  unfold processNode
  split
  · intro x hx; exact Or.inl ⟨x, hx, rfl⟩
  split
  · intro x hx; exact Or.inl ⟨x, hx, rfl⟩
  · split
    · rename_i c hfound
      intro x hx
      rcases List.mem_map.mp hx with ⟨x0, hx0, hfx⟩
      by_cases ht : x0.tag = c.tag
      · right
        rw [← hfx]
        simp [ht]
      · left
        exact ⟨x0, hx0, by rw [← hfx]; simp [ht]⟩
    · split
      · intro x hx; exact Or.inl ⟨x, hx, rfl⟩
      · intro x hx; exact Or.inl ⟨x, hx, rfl⟩

/-- At most one Connection of `olds` carries the given id. -/
def uniqueKeyMatch (olds : List BConn) (key : String) : Prop :=
  ∀ x ∈ olds, ∀ y ∈ olds, x.id = key → y.id = key → x = y

/-- Helper: update-loop lifts of the single-step facts. -/
theorem updateLoop_UpdInv {startTag : Nat} :
    ∀ (ns : List UpdNode) (s : UpdState), UpdInv startTag s →
      UpdInv startTag (updateLoop s ns) := by
  intro ns
  induction ns with
  | nil => intro s h; exact h
  | cons n rest ih => intro s h; exact ih _ (processNode_UpdInv n h)

/-- Helper: pushed tags survive the whole loop. -/
theorem updateLoop_news_mono :
    ∀ (ns : List UpdNode) (s : UpdState) {t : Nat},
      t ∈ s.news → t ∈ (updateLoop s ns).news := by
  intro ns
  induction ns with
  | nil => intro s t h; exact h
  | cons n rest ih => intro s t h; exact ih _ (processNode_news_mono s n h)

/-- Helper, one step of the untouched-Connection argument: a Connection
whose id matches neither the processed node's id nor its URL href is left
in `this.connections` unchanged, its tag is not pushed, and id-uniqueness
for any key other than the node's id is preserved. -/
theorem processNode_segment_step (c : BConn) (key : String) {startTag : Nat}
    (s : UpdState) (n : UpdNode)
    (hinv : UpdInv startTag s)
    (hc : c ∈ s.olds)
    (hcid : c.id ≠ n.id) (hcurl : c.id ≠ n.urlHref)
    (hkey : key ≠ n.id)
    (huniq : uniqueKeyMatch s.olds key) :
    c ∈ (processNode s n).olds ∧
    (c.tag ∉ s.news → c.tag ∉ (processNode s n).news) ∧
    uniqueKeyMatch (processNode s n).olds key := by
  obtain ⟨htags, hfresh, hstart, -, -, -⟩ := hinv
  unfold processNode
  split
  · exact ⟨hc, fun h => h, huniq⟩
  split
  · rename_i c' hfound
    have hc'mem : c' ∈ s.olds := List.mem_of_find?_eq_some hfound
    have hc'id : c'.id = n.id := by simpa using List.find?_some hfound
    have hne : c' ≠ c := fun he => hcid (by rw [← he]; exact hc'id)
    have htagne : c.tag ≠ c'.tag := fun he =>
      hne (List.inj_on_of_nodup_map htags hc'mem hc he.symm)
    refine ⟨hc, ?_, huniq⟩
    intro hnotin hmem
    rcases List.mem_append.mp hmem with h | h
    · exact hnotin h
    · exact htagne (List.mem_singleton.mp h)
  · split
    · rename_i c' hfound
      have hc'mem : c' ∈ s.olds := List.mem_of_find?_eq_some hfound
      have hc'id : c'.id = n.urlHref := by simpa using List.find?_some hfound
      have hne : c' ≠ c := fun he => hcurl (by rw [← he]; exact hc'id)
      have htagne : c.tag ≠ c'.tag := fun he =>
        hne (List.inj_on_of_nodup_map htags hc'mem hc he.symm)
      refine ⟨?_, ?_, ?_⟩
      · exact List.mem_map.mpr ⟨c, hc, by simp [htagne]⟩
      · intro hnotin hmem
        rcases List.mem_append.mp hmem with h | h
        · exact hnotin h
        · exact htagne (List.mem_singleton.mp h)
      · intro x hx y hy hxk hyk
        rcases List.mem_map.mp hx with ⟨x0, hx0, hfx⟩
        rcases List.mem_map.mp hy with ⟨y0, hy0, hfy⟩
        by_cases hxt : x0.tag = c'.tag
        · exfalso
          rw [← hfx] at hxk
          simp [hxt] at hxk
          exact hkey hxk.symm
        · by_cases hyt : y0.tag = c'.tag
          · exfalso
            rw [← hfy] at hyk
            simp [hyt] at hyk
            exact hkey hyk.symm
          · have hxx : x = x0 := by rw [← hfx]; simp [hxt]
            have hyy : y = y0 := by rw [← hfy]; simp [hyt]
            rw [hxx, hyy]
            exact huniq x0 hx0 y0 hy0 (hxx ▸ hxk) (hyy ▸ hyk)
    · split
      · exact ⟨hc, fun h => h, huniq⟩
      · refine ⟨hc, ?_, huniq⟩
        intro hnotin hmem
        rcases List.mem_append.mp hmem with h | h
        · exact hnotin h
        · have hlt : c.tag < s.nextTag := lt_of_lt_of_le (hfresh c hc) hstart
          have := List.mem_singleton.mp h
          omega

/-- Helper: the untouched-Connection argument over a whole node segment,
together with the id-provenance of the surviving `this.connections`. -/
theorem updateLoop_segment (c : BConn) (key : String) {startTag : Nat} :
    ∀ (ns : List UpdNode) (s : UpdState),
      UpdInv startTag s →
      c ∈ s.olds →
      (∀ n ∈ ns, c.id ≠ n.id ∧ c.id ≠ n.urlHref) →
      (∀ n ∈ ns, key ≠ n.id) →
      uniqueKeyMatch s.olds key →
      c ∈ (updateLoop s ns).olds ∧
      (c.tag ∉ s.news → c.tag ∉ (updateLoop s ns).news) ∧
      uniqueKeyMatch (updateLoop s ns).olds key ∧
      (∀ x ∈ (updateLoop s ns).olds,
        (∃ y ∈ s.olds, x.id = y.id) ∨ ∃ m ∈ ns, x.id = m.id) := by
  intro ns
  induction ns with
  | nil =>
    intro s _ hc _ _ huniq
    exact ⟨hc, fun h => h, huniq, fun x hx => Or.inl ⟨x, hx, rfl⟩⟩
  | cons n rest ih =>
    intro s hinv hc hcond hkey huniq
    obtain ⟨hc1, hn1, hu1⟩ :=
      processNode_segment_step c key s n hinv hc (hcond n (List.mem_cons_self n rest)).1
        (hcond n (List.mem_cons_self n rest)).2 (hkey n (List.mem_cons_self n rest)) huniq
    obtain ⟨hc2, hn2, hu2, hsub2⟩ :=
      ih (processNode s n) (processNode_UpdInv n hinv) hc1
        (fun m hm => hcond m (List.mem_cons_of_mem n hm))
        (fun m hm => hkey m (List.mem_cons_of_mem n hm)) hu1
    refine ⟨hc2, fun h => hn2 (hn1 h), hu2, ?_⟩
    intro x hx
    rcases hsub2 x hx with ⟨y, hy, hxy⟩ | ⟨m, hm, hxm⟩
    · rcases processNode_ids_subset s n y hy with ⟨z, hz, hyz⟩ | hyn
      · exact Or.inl ⟨z, hz, by rw [hxy, hyz]⟩
      · exact Or.inr ⟨n, List.mem_cons_self n rest, by rw [hxy, hyn]⟩
    · exact Or.inr ⟨m, List.mem_cons_of_mem n hm, hxm⟩

/-- Helper: when a Connection with the node's id exists (uniquely),
`processNode` takes the reuse-by-id branch. -/
theorem processNode_byId_hit (s : UpdState) (n : UpdNode) (c : BConn)
    (hdup : s.dupErr = false)
    (hc : c ∈ s.olds) (hcid : c.id = n.id)
    (huniq : uniqueKeyMatch s.olds n.id) :
    processNode s n = { s with news := s.news ++ [c.tag] } := by
  unfold processNode
  rw [if_neg (by simp [hdup])]
  rw [find?_eq_some_of_unique c s.olds hc (by simp [hcid])
    (fun x hx hpx => huniq x hx c hc (by simpa using hpx) hcid)]

/-- Helper: when no Connection has the node's id but one (uniquely) has
the node's URL href as its id, `processNode` takes the re-key branch. -/
theorem processNode_byUrl_hit (s : UpdState) (n : UpdNode) (c : BConn)
    (hdup : s.dupErr = false)
    (hnone : ∀ x ∈ s.olds, x.id ≠ n.id)
    (hc : c ∈ s.olds) (hcurl : c.id = n.urlHref)
    (huniq : uniqueKeyMatch s.olds n.urlHref) :
    processNode s n =
      { s with
        olds := s.olds.map fun c2 =>
          if c2.tag = c.tag then { c2 with id := n.id } else c2,
        news := s.news ++ [c.tag] } := by
  unfold processNode
  rw [if_neg (by simp [hdup])]
  rw [List.find?_eq_none.mpr fun x hx => by simpa using hnone x hx]
  rw [find?_eq_some_of_unique c s.olds hc (by simp [hcurl])
    (fun x hx hpx => huniq x hx c hc (by simpa using hpx) hcurl)]

/-- Helper: a surviving Connection whose tag was pushed is a member of the
final `newConnections` (the tag lookup against the object store succeeds
and returns it, tags being globally unique). -/
theorem result_mem_of_news {s : UpdState} {startTag : Nat} (c : BConn)
    (hinv : UpdInv startTag s)
    (hc : c ∈ s.olds) (ht : c.tag ∈ s.news) :
    c ∈ s.news.filterMap fun t => (s.olds ++ s.created).find? (fun x => x.tag == t) := by
  obtain ⟨htags, hfresh, hstart, hcre, hcrnd, -⟩ := hinv
  have hstore : c ∈ s.olds ++ s.created := List.mem_append_left _ hc
  have hfind : (s.olds ++ s.created).find? (fun x => x.tag == c.tag) = some c := by
    apply find?_eq_some_of_unique c _ hstore (by simp)
    intro x hx hpx
    have hxt : x.tag = c.tag := by simpa using hpx
    rcases List.mem_append.mp hx with hx' | hx'
    · exact List.inj_on_of_nodup_map htags hx' hc hxt
    · exfalso
      have h1 := (hcre x hx').1
      have h2 := hfresh c hc
      omega
  exact List.mem_filterMap.mpr ⟨c.tag, ht, hfind⟩

/-- Helper: every member of the final `newConnections` carries a pushed
tag. -/
theorem result_tags_subset {s : UpdState} {c2 : BConn}
    (h : c2 ∈ s.news.filterMap fun t => (s.olds ++ s.created).find? (fun x => x.tag == t)) :
    c2.tag ∈ s.news := by
  rcases List.mem_filterMap.mp h with ⟨t, htmem, hfind⟩
  have ht : c2.tag = t := by simpa using List.find?_some hfind
  rw [ht]
  exact htmem

/-- Helper: the node loop splits over list append. -/
theorem updateLoop_append (a b : List UpdNode) :
    ∀ s, updateLoop s (a ++ b) = updateLoop (updateLoop s a) b := by
  induction a with
  | nil => intro s; rfl
  | cons n rest ih =>
    intro s
    simp only [List.cons_append, updateLoop]
    exact ih _

/-- Helper: `contains` is false for a non-member. -/
theorem contains_false_of_not_mem {l : List String} {a : String} (h : a ∉ l) :
    l.contains a = false := by
  cases hx : l.contains a
  · rfl
  · exact absurd (by simpa using hx) h

/-- Helper: with the duplicate throw unreachable, `baseUpdate` returns the
final `newConnections` (tag references resolved against the object store)
and the filtered-out old Connections. -/
theorem baseUpdate_eq (p : BasePool) (nodes : List UpdNode)
    (h : (updateLoop ⟨p.connections, [], [], p.nextTag, false⟩ nodes).dupErr = false) :
    baseUpdate p nodes = some
      ({ connections :=
            (updateLoop ⟨p.connections, [], [], p.nextTag, false⟩ nodes).news.filterMap
              fun t =>
                ((updateLoop ⟨p.connections, [], [], p.nextTag, false⟩ nodes).olds ++
                  (updateLoop ⟨p.connections, [], [], p.nextTag, false⟩ nodes).created).find?
                    (fun c => c.tag == t),
          nextTag := (updateLoop ⟨p.connections, [], [], p.nextTag, false⟩ nodes).nextTag },
        (updateLoop ⟨p.connections, [], [], p.nextTag, false⟩ nodes).olds.filter
          fun c => !((nodes.map UpdNode.id).contains c.id)) := by
  simp only [baseUpdate]
  rw [if_neg (by simp [h])]

/-- C5 (amended): `update` preserves the object identity of an existing
Connection when the incoming node's id matches the Connection's current
id, or — when no Connection carries the node's id — when the node's URL
href equals the Connection's CURRENT ID (the source compares
`node.url.href` against Connection ids, `c.id === node.url.href`, not
against Connection URLs), in which case the Connection is re-keyed to the
node's id and kept; every Connection none of whose ids (before or after
re-keying) is among the node ids is closed and dropped. Stated under the
pool invariants (distinct tags below the fresh counter, distinct ids) and
for node lists with distinct ids, distinct URL hrefs, and no node URL
href equal to a node id. -/
theorem update_identity_rules (p : BasePool) (nodes : List UpdNode)
    (hTags : (p.connections.map BConn.tag).Nodup)
    (hFresh : ∀ c ∈ p.connections, c.tag < p.nextTag)
    (hIds : (p.connections.map BConn.id).Nodup)
    (hNodeIds : (nodes.map UpdNode.id).Nodup)
    (hNodeUrls : (nodes.map UpdNode.urlHref).Nodup)
    (hNoCross : ∀ n ∈ nodes, ∀ m ∈ nodes, n.urlHref ≠ m.id) :
    ∃ p' closed, baseUpdate p nodes = some (p', closed) ∧
      (∀ c ∈ p.connections, ∀ n ∈ nodes, c.id = n.id → c ∈ p'.connections) ∧
      (∀ c ∈ p.connections, ∀ n ∈ nodes,
        (∀ c2 ∈ p.connections, c2.id ≠ n.id) → c.id = n.urlHref →
        (⟨c.tag, n.id, c.urlHref⟩ : BConn) ∈ p'.connections) ∧
      (∀ c ∈ p.connections, (∀ n ∈ nodes, c.id ≠ n.id ∧ c.id ≠ n.urlHref) →
        c ∈ closed ∧ ∀ c2 ∈ p'.connections, c2.tag ≠ c.tag) := by
  have hinv0 : UpdInv p.nextTag ⟨p.connections, [], [], p.nextTag, false⟩ :=
    ⟨hTags, hFresh, le_refl _, fun x hx => absurd hx (List.not_mem_nil x),
      List.nodup_nil, rfl⟩
  have hinvf : UpdInv p.nextTag (updateLoop ⟨p.connections, [], [], p.nextTag, false⟩ nodes) :=
    updateLoop_UpdInv nodes _ hinv0
  have hdupf := hinvf.2.2.2.2.2
  refine ⟨_, _, baseUpdate_eq p nodes hdupf, ?_, ?_, ?_⟩
  · -- reuse by id
    intro c hc n hn hcid
    rcases List.append_of_mem hn with ⟨pre, post, rfl⟩
    rw [List.map_append, List.map_cons] at hNodeIds
    have hdisj := List.nodup_append.mp hNodeIds
    have hpreid : ∀ m ∈ pre, m.id ≠ n.id := by
      intro m hm he
      exact hdisj.2.2 (List.mem_map_of_mem UpdNode.id hm)
        (by rw [he]; exact List.mem_cons_self _ _)
    have hpostid : ∀ m ∈ post, m.id ≠ n.id := by
      intro m hm he
      have hcons := hdisj.2.1
      rw [List.nodup_cons] at hcons
      exact hcons.1 (by rw [← he]; exact List.mem_map_of_mem UpdNode.id hm)
    have hmemn : n ∈ pre ++ n :: post :=
      List.mem_append_right _ (List.mem_cons_self _ _)
    have hmempre : ∀ m ∈ pre, m ∈ pre ++ n :: post := fun m hm =>
      List.mem_append_left _ hm
    have huniq0 : uniqueKeyMatch p.connections n.id := fun x hx y hy hxk hyk =>
      List.inj_on_of_nodup_map hIds hx hy (by rw [hxk, hyk])
    obtain ⟨hc1, -, hu1, -⟩ :=
      updateLoop_segment c n.id pre ⟨p.connections, [], [], p.nextTag, false⟩ hinv0 hc
        (fun m hm =>
          ⟨fun he => hpreid m hm (by rw [← he, hcid]),
           fun he => hNoCross m (hmempre m hm) n hmemn (by rw [← he, hcid])⟩)
        (fun m hm he => hpreid m hm he.symm) huniq0
    have hinv1 : UpdInv p.nextTag
        (updateLoop ⟨p.connections, [], [], p.nextTag, false⟩ pre) :=
      updateLoop_UpdInv pre _ hinv0
    have hstep := processNode_byId_hit
      (updateLoop ⟨p.connections, [], [], p.nextTag, false⟩ pre) n c
      hinv1.2.2.2.2.2 hc1 hcid hu1
    have hloop : updateLoop ⟨p.connections, [], [], p.nextTag, false⟩ (pre ++ n :: post) =
        updateLoop
          { updateLoop ⟨p.connections, [], [], p.nextTag, false⟩ pre with
            news := (updateLoop ⟨p.connections, [], [], p.nextTag, false⟩ pre).news ++ [c.tag] }
          post := by
      rw [updateLoop_append, updateLoop, hstep]
    obtain ⟨hc3, -, -, -⟩ :=
      updateLoop_segment c n.id post
        { updateLoop ⟨p.connections, [], [], p.nextTag, false⟩ pre with
          news := (updateLoop ⟨p.connections, [], [], p.nextTag, false⟩ pre).news ++ [c.tag] }
        hinv1 hc1
        (fun m hm =>
          ⟨fun he => hpostid m hm (by rw [← he, hcid]),
           fun he => hNoCross m (List.mem_append_right _ (List.mem_cons_of_mem _ hm)) n hmemn
             (by rw [← he, hcid])⟩)
        (fun m hm he => hpostid m hm he.symm) hu1
    have hfin : c ∈ (updateLoop ⟨p.connections, [], [], p.nextTag, false⟩
        (pre ++ n :: post)).olds := by
      rw [hloop]
      exact hc3
    have htagf : c.tag ∈ (updateLoop ⟨p.connections, [], [], p.nextTag, false⟩
        (pre ++ n :: post)).news := by
      rw [hloop]
      exact updateLoop_news_mono post _
        (List.mem_append_right _ (List.mem_singleton_self _))
    exact result_mem_of_news c hinvf hfin htagf
  · -- re-key by URL href against the Connection id
    intro c hc n hn hnoid hcurl
    rcases List.append_of_mem hn with ⟨pre, post, rfl⟩
    rw [List.map_append, List.map_cons] at hNodeIds hNodeUrls
    have hdisjId := List.nodup_append.mp hNodeIds
    have hdisjUrl := List.nodup_append.mp hNodeUrls
    have hpreid : ∀ m ∈ pre, m.id ≠ n.id := by
      intro m hm he
      exact hdisjId.2.2 (List.mem_map_of_mem UpdNode.id hm)
        (by rw [he]; exact List.mem_cons_self _ _)
    have hpostid : ∀ m ∈ post, m.id ≠ n.id := by
      intro m hm he
      have hcons := hdisjId.2.1
      rw [List.nodup_cons] at hcons
      exact hcons.1 (by rw [← he]; exact List.mem_map_of_mem UpdNode.id hm)
    have hpreurl : ∀ m ∈ pre, m.urlHref ≠ n.urlHref := by
      intro m hm he
      exact hdisjUrl.2.2 (List.mem_map_of_mem UpdNode.urlHref hm)
        (by rw [he]; exact List.mem_cons_self _ _)
    have hmemn : n ∈ pre ++ n :: post :=
      List.mem_append_right _ (List.mem_cons_self _ _)
    have hmempre : ∀ m ∈ pre, m ∈ pre ++ n :: post := fun m hm =>
      List.mem_append_left _ hm
    have hmempost : ∀ m ∈ post, m ∈ pre ++ n :: post := fun m hm =>
      List.mem_append_right _ (List.mem_cons_of_mem _ hm)
    have huniq0 : uniqueKeyMatch p.connections n.urlHref := fun x hx y hy hxk hyk =>
      List.inj_on_of_nodup_map hIds hx hy (by rw [hxk, hyk])
    obtain ⟨hc1, -, hu1, hsub1⟩ :=
      updateLoop_segment c n.urlHref pre ⟨p.connections, [], [], p.nextTag, false⟩ hinv0 hc
        (fun m hm =>
          ⟨fun he => hNoCross n hmemn m (hmempre m hm) (by rw [← he, hcurl]),
           fun he => hpreurl m hm (by rw [← he, hcurl])⟩)
        (fun m hm he => hNoCross n hmemn m (hmempre m hm) he) huniq0
    have hinv1 : UpdInv p.nextTag
        (updateLoop ⟨p.connections, [], [], p.nextTag, false⟩ pre) :=
      updateLoop_UpdInv pre _ hinv0
    have hnone : ∀ x ∈ (updateLoop ⟨p.connections, [], [], p.nextTag, false⟩ pre).olds,
        x.id ≠ n.id := by
      intro x hx he
      rcases hsub1 x hx with ⟨y, hy, hxy⟩ | ⟨m, hm, hxm⟩
      · exact hnoid y hy (by rw [← hxy, he])
      · exact hpreid m hm (by rw [← hxm, he])
    have hstep := processNode_byUrl_hit
      (updateLoop ⟨p.connections, [], [], p.nextTag, false⟩ pre) n c
      hinv1.2.2.2.2.2 hnone hc1 hcurl hu1
    have hcr2 : (⟨c.tag, n.id, c.urlHref⟩ : BConn) ∈
        ((updateLoop ⟨p.connections, [], [], p.nextTag, false⟩ pre).olds.map fun c2 =>
          if c2.tag = c.tag then { c2 with id := n.id } else c2) :=
      List.mem_map.mpr ⟨c, hc1, by simp⟩
    have hinv2 : UpdInv p.nextTag
        (processNode (updateLoop ⟨p.connections, [], [], p.nextTag, false⟩ pre) n) :=
      processNode_UpdInv n hinv1
    rw [hstep] at hinv2
    have huniq2 : uniqueKeyMatch
        ((updateLoop ⟨p.connections, [], [], p.nextTag, false⟩ pre).olds.map fun c2 =>
          if c2.tag = c.tag then { c2 with id := n.id } else c2) n.id := by
      intro x hx y hy hxk hyk
      rcases List.mem_map.mp hx with ⟨x0, hx0, hfx⟩
      rcases List.mem_map.mp hy with ⟨y0, hy0, hfy⟩
      have hxval : x = { c with id := n.id } := by
        by_cases hxt : x0.tag = c.tag
        · have hx0c : x0 = c := List.inj_on_of_nodup_map hinv1.1 hx0 hc1 hxt
          rw [← hfx, hx0c]
          simp
        · exfalso
          rw [← hfx] at hxk
          simp [hxt] at hxk
          exact hnone x0 hx0 hxk
      have hyval : y = { c with id := n.id } := by
        by_cases hyt : y0.tag = c.tag
        · have hy0c : y0 = c := List.inj_on_of_nodup_map hinv1.1 hy0 hc1 hyt
          rw [← hfy, hy0c]
          simp
        · exfalso
          rw [← hfy] at hyk
          simp [hyt] at hyk
          exact hnone y0 hy0 hyk
      rw [hxval, hyval]
    obtain ⟨hcr3, -, -, -⟩ :=
      updateLoop_segment (⟨c.tag, n.id, c.urlHref⟩ : BConn) n.id post
        { updateLoop ⟨p.connections, [], [], p.nextTag, false⟩ pre with
          olds := (updateLoop ⟨p.connections, [], [], p.nextTag, false⟩ pre).olds.map fun c2 =>
            if c2.tag = c.tag then { c2 with id := n.id } else c2,
          news := (updateLoop ⟨p.connections, [], [], p.nextTag, false⟩ pre).news ++ [c.tag] }
        hinv2 hcr2
        (fun m hm =>
          ⟨fun he => hpostid m hm he.symm,
           fun he => hNoCross m (hmempost m hm) n hmemn he.symm⟩)
        (fun m hm he => hpostid m hm he.symm) huniq2
    have hloop : updateLoop ⟨p.connections, [], [], p.nextTag, false⟩ (pre ++ n :: post) =
        updateLoop
          { updateLoop ⟨p.connections, [], [], p.nextTag, false⟩ pre with
            olds := (updateLoop ⟨p.connections, [], [], p.nextTag, false⟩ pre).olds.map fun c2 =>
              if c2.tag = c.tag then { c2 with id := n.id } else c2,
            news := (updateLoop ⟨p.connections, [], [], p.nextTag, false⟩ pre).news ++ [c.tag] }
          post := by
      rw [updateLoop_append, updateLoop, hstep]
    have hfin : (⟨c.tag, n.id, c.urlHref⟩ : BConn) ∈
        (updateLoop ⟨p.connections, [], [], p.nextTag, false⟩ (pre ++ n :: post)).olds := by
      rw [hloop]
      exact hcr3
    have htagf : c.tag ∈ (updateLoop ⟨p.connections, [], [], p.nextTag, false⟩
        (pre ++ n :: post)).news := by
      rw [hloop]
      exact updateLoop_news_mono post _
        (List.mem_append_right _ (List.mem_singleton_self _))
    exact result_mem_of_news (⟨c.tag, n.id, c.urlHref⟩ : BConn) hinvf hfin htagf
  · -- closed and dropped
    intro c hc hcond
    have huniq0 : uniqueKeyMatch p.connections c.id := fun x hx y hy hxk hyk =>
      List.inj_on_of_nodup_map hIds hx hy (by rw [hxk, hyk])
    obtain ⟨hcf, hnf, -, -⟩ :=
      updateLoop_segment c c.id nodes ⟨p.connections, [], [], p.nextTag, false⟩ hinv0 hc
        hcond (fun n hn he => (hcond n hn).1 he) huniq0
    have hnotin : c.tag ∉ (updateLoop ⟨p.connections, [], [], p.nextTag, false⟩ nodes).news :=
      hnf (List.not_mem_nil _)
    constructor
    · apply List.mem_filter.mpr
      refine ⟨hcf, ?_⟩
      have hno : c.id ∉ nodes.map UpdNode.id := by
        intro hmem
        rcases List.mem_map.mp hmem with ⟨m, hm, hmid⟩
        exact (hcond m hm).1 hmid.symm
      rw [contains_false_of_not_mem hno]
      rfl
    · intro c2 hc2 he
      have := result_tags_subset hc2
      rw [he] at this
      exact hnotin this

/-- C5 witness: a three-Connection pool updated with two nodes — one
matching Connection tag 0 by id, one matching Connection tag 5 by URL href
against its id (re-keyed to `"newB"`); Connection tag 7 matches nothing
and is closed and dropped. -/
theorem update_identity_rules_witness :
    ∃ p' closed,
      baseUpdate
          ⟨[⟨0, "A", "http://a/"⟩, ⟨5, "http://b/", "http://b/"⟩,
            ⟨7, "old", "http://c/"⟩], 10⟩
          [⟨"A", "http://a2/"⟩, ⟨"newB", "http://b/"⟩] = some (p', closed) ∧
      (⟨0, "A", "http://a/"⟩ : BConn) ∈ p'.connections ∧
      (⟨5, "newB", "http://b/"⟩ : BConn) ∈ p'.connections ∧
      (⟨7, "old", "http://c/"⟩ : BConn) ∈ closed ∧
      ∀ c2 ∈ p'.connections, c2.tag ≠ 7 := by
  obtain ⟨p', closed, heq, ha, hb, hc⟩ :=
    update_identity_rules
      ⟨[⟨0, "A", "http://a/"⟩, ⟨5, "http://b/", "http://b/"⟩,
        ⟨7, "old", "http://c/"⟩], 10⟩
      [⟨"A", "http://a2/"⟩, ⟨"newB", "http://b/"⟩]
      (by decide) (by decide) (by decide) (by decide) (by decide) (by decide)
  obtain ⟨hclosed, hdropped⟩ :=
    hc ⟨7, "old", "http://c/"⟩ (by decide) (by decide)
  exact ⟨p', closed, heq,
    ha ⟨0, "A", "http://a/"⟩ (by decide) ⟨"A", "http://a2/"⟩ (by decide) rfl,
    hb ⟨5, "http://b/", "http://b/"⟩ (by decide) ⟨"newB", "http://b/"⟩ (by decide)
      (by decide) rfl,
    hclosed, hdropped⟩
